import Mathlib

/-!
Verification of the claude-notifier repository's core logic, shallowly
embedded in Lean.

Embedded components:
* `parseTranscript` (src/src/lib/transcript-parser.ts): the two-pass JSONL
  transcript reconstructor.
* `parseUsageOutput` / `getUsageStats` (src/dist/lib/tmux-usage-scraper.js):
  the line-oriented quota-screen parser (verbatim reset-line variant).
* `formatTools`, the duration formatter and the message builders of the
  task-completed hooks (src/src/hooks/task-completed.ts and the compiled
  variant without a transcript path).

Modelling conventions:
* JavaScript numbers that the code only ever uses as integer epoch
  milliseconds are modelled as `Int`; JS truthiness of a number is `≠ 0`
  and of a string is `≠ ""`, made explicit at each use site.
* `JSON.parse` of a transcript line either fails (`TranscriptLine.malformed`,
  which in the source throws and lands in the surrounding catch) or yields a
  structured entry; fields absent in the JSON are `Option.none`.  A
  whitespace-only line is `TranscriptLine.blank` (the source `continue`s on
  it before parsing).  `readFileSync` failure is the `none` case of the
  `Option` argument of `parseTranscript`.
* `new Date(s).getTime()` is abstracted to the numeric value it produces:
  entries carry `timestamp : Option Int` directly (absent / empty string
  collapse to `none`; invalid-date NaN inputs are outside the model).
* Strings are processed through their character lists so that every
  definition reduces in the kernel; `.trim`, `.join`, `.split('\n')` and the
  two regexes of the usage parser are implemented character by character
  with the exact backtracking behaviour of the JS originals.
-/

/-! ## Character-level string helpers -/

/-- Does `p` occur at the head of `cs`? (`List.isPrefixOf` for chars, kept
local and fuel-free so every use reduces by `decide`.) -/
def startsWithChars : List Char → List Char → Bool
  | [], _ => true
  | _ :: _, [] => false
  | p :: ps, c :: cs => p == c && startsWithChars ps cs

/-- JS `String.prototype.includes`: does `pat` occur anywhere in `cs`? -/
def containsChars (pat : List Char) : List Char → Bool
  | [] => startsWithChars pat []
  | c :: cs => startsWithChars pat (c :: cs) || containsChars pat cs

/-- JS `String.prototype.trim`: drop whitespace from both ends. -/
def trimChars (cs : List Char) : List Char :=
  (((cs.dropWhile Char.isWhitespace).reverse).dropWhile Char.isWhitespace).reverse

/-- JS `String.prototype.split('\n')` on the character list (keeps empty
segments, exactly like the JS original). -/
def splitLines : List Char → List (List Char)
  | [] => [[]]
  | c :: cs =>
    match splitLines cs with
    | [] => [[]]
    | l :: ls => if c = '\n' then [] :: l :: ls else (c :: l) :: ls

/-- `Array.prototype.join(sep)` on character lists. -/
def joinWithChars (sep : List Char) : List (List Char) → List Char
  | [] => []
  | [x] => x
  | x :: y :: rest => x ++ sep ++ joinWithChars sep (y :: rest)

/-- Decimal value of a digit list (the digits-only case of JS `parseInt`). -/
def digitsToNat (cs : List Char) : Nat :=
  cs.foldl (fun n c => n * 10 + (c.toNat - 48)) 0

/-- Decimal rendering of a `Nat`, via an explicit fuel so that it reduces in
the kernel (`fuel ≥ 1 + number of digits` always holds for `fuel = n + 1`). -/
def natToCharsAux : Nat → Nat → List Char → List Char
  | 0, _, acc => acc
  | fuel + 1, n, acc =>
    let d := Char.ofNat (48 + n % 10)
    if n < 10 then d :: acc else natToCharsAux fuel (n / 10) (d :: acc)

/-- JS number-to-string conversion for non-negative integers. -/
def natToString (n : Nat) : String :=
  String.mk (natToCharsAux (n + 1) n [])

/-- `Array.prototype.join(', ')` on strings. -/
def joinComma : List String → String
  | [] => ""
  | [x] => x
  | x :: y :: rest => x ++ ", " ++ joinComma (y :: rest)

/-! ## Transcript data model (transcript-parser.ts) -/

/-- One element of an assistant message's `content` array: recognised
`type`s are `"tool_use"` (with `name`) and `"text"` (with `text`). -/
structure JPart where
  type : String
  name : Option String
  text : Option String

/-- A message `content` payload: either a plain string or a part array. -/
inductive JContent
  | str (s : String)
  | parts (ps : List JPart)

/-- The `message` object of a transcript entry. -/
structure JMessage where
  role : Option String
  content : Option JContent

/-- One parsed JSONL transcript entry (`TranscriptEntry` in the source);
`timestamp` is the already-converted `new Date(·).getTime()` value. -/
structure TranscriptEntry where
  type : String
  message : Option JMessage
  timestamp : Option Int

/-- One physical line of the transcript file, as seen by the parser loop:
whitespace-only (skipped), unparseable JSON (throws in the source), or a
structured entry. -/
inductive TranscriptLine
  | blank
  | malformed
  | entry (e : TranscriptEntry)

/-- `SessionData` from src/src/lib/types.ts. -/
structure SessionData where
  prompt : Option String
  response : Option String
  tools : List String
  duration : Option Int
  error : Option String
deriving DecidableEq

/-- The catch-branch result of `parseTranscript`: empty tool list, every
other field absent. -/
def emptySessionData : SessionData :=
  { prompt := none, response := none, tools := [], duration := none, error := none }

def isMalformedLine : TranscriptLine → Bool
  | .malformed => true
  | _ => false

def entryOfLine : TranscriptLine → Option TranscriptEntry
  | .entry e => some e
  | _ => none

/-- The structured entries of a line list, in order (blank lines skipped). -/
def transcriptEntriesOf (lines : List TranscriptLine) : List TranscriptEntry :=
  lines.filterMap entryOfLine

/-- First pass of `parseTranscript`: track `(lastUserPrompt,
lastUserTimestamp)`.  Note that the source only overwrites
`lastUserTimestamp` when the user entry carries a timestamp, so a later
user message without one leaves the previous value in place. -/
def firstPassStep (st : String × Option Int) (e : TranscriptEntry) : String × Option Int :=
  if e.type = "user" then
    match e.message with
    | some m =>
      if m.role = some "user" then
        match m.content with
        | some (JContent.str s) =>
          (s, match e.timestamp with
              | some t => some t
              | none => st.2)
        | _ => st
      else st
    | none => st
  else st

def firstPass (entries : List TranscriptEntry) : String × Option Int :=
  entries.foldl firstPassStep ("", none)

/-- State of the second pass. -/
structure ScanState where
  collecting : Bool
  tools : List String
  texts : List String
  endTime : Option Int

def initialScan : ScanState :=
  { collecting := false, tools := [], texts := [], endTime := none }

/-- Per-part collection: `tool_use` parts append their (truthy) name,
`text` parts append their (truthy) text. -/
def partStep (s : ScanState) (p : JPart) : ScanState :=
  let s1 :=
    match p.name with
    | some n => if p.type = "tool_use" ∧ n ≠ "" then { s with tools := s.tools ++ [n] } else s
    | none => s
  match p.text with
  | some t => if p.type = "text" ∧ t ≠ "" then { s1 with texts := s1.texts ++ [t] } else s1
  | none => s1

/-- The source condition that re-identifies the anchor: a user entry whose
timestamp is present and equal to the (truthy) recorded
`lastUserTimestamp`. -/
def isTrigger (lastTS : Option Int) (e : TranscriptEntry) : Bool :=
  (e.type = "user" : Bool) &&
  (match e.message with
   | some m => m.role = some "user"
   | none => false) &&
  (match e.timestamp, lastTS with
   | some t, some v => decide (v ≠ 0) && decide (t = v)
   | _, _ => false)

/-- Collect tools and response text from an assistant entry with a part
array, when already collecting. -/
def collectStep (s : ScanState) (e : TranscriptEntry) : ScanState :=
  if s.collecting = true ∧ e.type = "assistant" then
    match e.message with
    | some m =>
      match m.content with
      | some (JContent.parts ps) => ps.foldl partStep s
      | _ => s
    | none => s
  else s

/-- Track the latest timestamp seen while collecting. -/
def stampStep (s : ScanState) (e : TranscriptEntry) : ScanState :=
  match e.timestamp with
  | some t => if s.collecting = true then { s with endTime := some t } else s
  | none => s

/-- One iteration of the second pass.  On the trigger entry the source sets
the flag and `continue`s, so that entry contributes neither content nor an
end time. -/
def secondPassStep (lastTS : Option Int) (s : ScanState) (e : TranscriptEntry) : ScanState :=
  if isTrigger lastTS e = true then { s with collecting := true }
  else stampStep (collectStep s e) e

def secondPass (lastTS : Option Int) (entries : List TranscriptEntry) : ScanState :=
  entries.foldl (secondPassStep lastTS) initialScan

/-- `lastUserTimestamp && endTime ? endTime - lastUserTimestamp : undefined`,
with JS numeric truthiness (`0` is falsy) made explicit. -/
def durationOf (lastTS endTime : Option Int) : Option Int :=
  match lastTS, endTime with
  | some v, some w => if v ≠ 0 ∧ w ≠ 0 then some (w - v) else none
  | _, _ => none

/-- The body of `parseTranscript` on successfully parsed entries. -/
def runTranscript (entries : List TranscriptEntry) : SessionData :=
  let fp := firstPass entries
  let st := secondPass fp.2 entries
  let response := String.mk (trimChars (joinWithChars ['\n'] (st.texts.map String.data)))
  { prompt := if fp.1 = "" then none else some fp.1
  , response := if response = "" then none else some response
  , tools := st.tools
  , duration := durationOf fp.2 st.endTime
  , error := none }

/-- `parseTranscript` (src/src/lib/transcript-parser.ts).  The `Option`
argument stands for the result of `readFileSync`: `none` is a read failure.
Any unparseable (non-blank) line makes `JSON.parse` throw, which the
function-level catch turns into `emptySessionData`; there is no per-line
recovery in the source. -/
def parseTranscript (file : Option (List TranscriptLine)) : SessionData :=
  match file with
  | none => emptySessionData
  | some lines =>
    if lines.any isMalformedLine then emptySessionData
    else runTranscript (transcriptEntriesOf lines)

/-! ## Quota screen parser (dist/lib/tmux-usage-scraper.js) -/

/-- The parsed `/usage` dialog data of the shipped scraper (verbatim
reset-line variant). -/
structure TmuxUsageData where
  percentUsed : Nat
  resetTime : String
deriving DecidableEq

/-- `UsageStats` as consumed by the hooks (dist variant: the reset line is
kept verbatim). -/
structure UsageStats where
  tokenPercentageUsed : Nat
  resetTime : String
deriving DecidableEq

def currentSessionChars : List Char := "Current session".toList

def currentWeekChars : List Char := "Current week".toList

def usedChars : List Char := "used".toList

def resetsChars : List Char := "Resets".toList

/-- Attempt `/(\d+)%\s+used/` anchored at the head of `cs`: one or more
digits, `%`, one or more whitespace characters, then the literal `used`
(the greedy runs are equivalent to the JS backtracking here because `%` is
not a digit and `used` does not start with whitespace). -/
def matchPercentAt (cs : List Char) : Option Nat :=
  let ds := cs.takeWhile Char.isDigit
  if ds.isEmpty then none
  else
    match cs.drop ds.length with
    | '%' :: rest =>
      let ws := rest.takeWhile Char.isWhitespace
      if ws.isEmpty then none
      else if startsWithChars usedChars (rest.drop ws.length) then some (digitsToNat ds)
      else none
    | _ => none

/-- Leftmost match of `/(\d+)%\s+used/` in the line; returns the captured
number (`parseInt` of the digit run). -/
def percentMatch : List Char → Option Nat
  | [] => none
  | c :: cs =>
    match matchPercentAt (c :: cs) with
    | some n => some n
    | none => percentMatch cs

/-- Does `/Resets\s+.+/` match at the head of `cs`?  The JS pattern needs
`Resets`, then at least one whitespace character, then at least one further
character (`\s+` can lend trailing whitespace back to `.+`, so the precise
condition is: the character right after `Resets` is whitespace and at least
two characters follow). -/
def matchResetAt (cs : List Char) : Bool :=
  startsWithChars resetsChars cs &&
  (match cs.drop 6 with
   | w :: r => w.isWhitespace && !r.isEmpty
   | [] => false)

/-- Leftmost match of `/\s*(Resets\s+.+)/`: the capture group runs from the
first viable `Resets` to the end of the line (the leading `\s*` does not
change the capture). -/
def resetScan : List Char → Option (List Char)
  | [] => none
  | c :: cs => if matchResetAt (c :: cs) then some (c :: cs) else resetScan cs

/-- The line scan of `parseUsageOutput`: walk the captured lines with the
`inCurrentSession` flag, the accumulated percentage and reset string; a
reset match or a `Current week` line inside the section stops the scan. -/
def scanUsage : List String → Bool → Nat → String → Nat × String
  | [], _, p, r => (p, r)
  | line :: rest, inS, p, r =>
    let cs := line.data
    if containsChars currentSessionChars cs then scanUsage rest true p r
    else if inS then
      let p1 := (percentMatch cs).getD p
      match resetScan cs with
      | some cap => (p1, String.mk (trimChars cap))
      | none =>
        if containsChars currentWeekChars cs then (p1, r)
        else scanUsage rest true p1 r
    else scanUsage rest false p r

/-- `parseUsageOutput` on the already-split screen lines. -/
def parseUsageLines (lines : List String) : Option TmuxUsageData :=
  let res := scanUsage lines false 0 ""
  if res.1 > 0 ∨ res.2 ≠ "" then some { percentUsed := res.1, resetTime := res.2 }
  else none

/-- `parseUsageOutput` (dist/lib/tmux-usage-scraper.js): split the captured
pane text on newlines and scan. -/
def parseUsageOutput (output : String) : Option TmuxUsageData :=
  parseUsageLines ((splitLines output.data).map String.mk)

/-- `getUsageStats` (dist variant).  The tmux session handling, key sends
and pane capture are process effects; the `Option String` argument is the
captured pane text, with `none` standing for any failure on that path
(every such failure is caught and becomes `null` in the source). -/
def getUsageStats (captured : Option String) : Option UsageStats :=
  match captured with
  | none => none
  | some out =>
    match parseUsageOutput out with
    | none => none
    | some d => some { tokenPercentageUsed := d.percentUsed, resetTime := d.resetTime }

/-- A line that, scanned inside the `Current session` section, leaves the
parser state unchanged: it either re-asserts the section marker (the source
`continue`s without scanning it) or matches neither the percentage pattern,
the reset pattern, nor the `Current week` stop marker. -/
def neutralInSection (l : String) : Bool :=
  containsChars currentSessionChars l.data ||
    ((percentMatch l.data).isNone && (resetScan l.data).isNone &&
      !containsChars currentWeekChars l.data)

def c6CexScreen : String :=
  "Current session\n23% used\n45% used\nResets 2:59pm (America/New_York)"

def c9CexScreen : String := "Current session\n150% used\nResets 2:59pm (America/New_York)"

/-! ## task-completed hook (src/src/hooks/task-completed.ts and the
compiled Variant-A entry point) -/

/-- The stdin payload fields used by the Variant-A entry point. -/
structure HookData where
  prompt : Option String
  tools : Option (List String)
  duration : Option Int
  status : Option String
  error : Option String

/-- One Discord embed field. -/
structure DiscordField where
  name : String
  value : String
deriving DecidableEq

/-- The outgoing Discord message. -/
structure DiscordMessage where
  title : String
  color : Nat
  fields : List DiscordField
  timestamp : String
deriving DecidableEq

/-- JS string truthiness of an optional string. -/
def truthyStr : Option String → Bool
  | some s => !(s == "")
  | none => false

/-- JS numeric truthiness of an optional number. -/
def truthyInt : Option Int → Bool
  | some d => !(d == 0)
  | none => false

/-- `acc[tool] = (acc[tool] || 0) + 1` over an insertion-ordered property
list: bump the first matching key, append a fresh key at the end. -/
def bump : List (String × Nat) → String → List (String × Nat)
  | [], t => [(t, 1)]
  | (k, c) :: rest, t =>
    if k = t then (k, c + 1) :: rest else (k, c) :: bump rest t

/-- The `reduce` of `formatTools`: property creation order is first
appearance. -/
def countsList (tools : List String) : List (String × Nat) :=
  tools.foldl bump []

/-- Is `cs` a canonical decimal numeral (digits only, no leading zero
unless it is exactly `0`)? -/
def isCanonicalNat (cs : List Char) : Bool :=
  match cs with
  | [] => false
  | [c] => c.isDigit
  | c :: _ :: _ => c.isDigit && !(c == '0') && cs.all Char.isDigit

/-- Is the string an ECMAScript array-index property key (canonical numeral
with value below `2^32 - 1`)?  Such keys come first, numerically sorted, in
`Object.entries`. -/
def isArrayIndexKey (s : String) : Bool :=
  isCanonicalNat s.data && decide (digitsToNat s.data < 4294967295)

def keyVal (p : String × Nat) : Nat := digitsToNat p.1.data

def insertByVal (p : String × Nat) : List (String × Nat) → List (String × Nat)
  | [] => [p]
  | q :: t => if keyVal p ≤ keyVal q then p :: q :: t else q :: insertByVal p t

def sortByKeyVal (l : List (String × Nat)) : List (String × Nat) :=
  l.foldr insertByVal []

/-- ECMAScript `Object.entries` ordering on a property list created in
insertion order: array-index keys first in ascending numeric order, then
the remaining keys in insertion order. -/
def objectEntries (al : List (String × Nat)) : List (String × Nat) :=
  sortByKeyVal (al.filter fun p => isArrayIndexKey p.1) ++
    al.filter fun p => !isArrayIndexKey p.1

/-- `formatTools` (identical in task-completed.ts and the compiled hooks):
count occurrences into an object, then render `Object.entries` as
`"name (count)"` joined with `", "`. -/
def formatTools (tools : List String) : String :=
  if tools = [] then "None"
  else joinComma ((objectEntries (countsList tools)).map
    fun p => p.1 ++ " (" ++ natToString p.2 ++ ")")

/-- `(ms / 1000).toFixed(1)`: one decimal digit, rounding to the nearest
tenth with ties to the larger value, as `Number.prototype.toFixed`
specifies.  (The model computes with exact rationals; for inputs whose
quotient is not exactly representable as a binary double the JS float
rounding can differ, but every integer millisecond value of interest here
is exact.) -/
def toFixed1 (x : Int) : String :=
  let n : Int := Int.fdiv (x + 50) 100
  let a := n.natAbs
  let s := natToString (a / 10) ++ "." ++ natToString (a % 10)
  if n < 0 then "-" ++ s else s

/-- `sessionData.duration ? \`${(duration/1000).toFixed(1)}s\` : 'Unknown'`. -/
def durationValue (duration : Option Int) : String :=
  if truthyInt duration then toFixed1 (duration.getD 0) ++ "s" else "Unknown"

/-- `hookData.prompt ? prompt.substring(0,100) + (len>100 ? '...' : '') :
'No prompt provided'` (JS UTF-16 positions modelled as characters). -/
def promptPreviewOf (prompt : Option String) : String :=
  if truthyStr prompt then
    let p := prompt.getD ""
    String.mk (p.data.take 100) ++ (if p.data.length > 100 then "..." else "")
  else "No prompt provided"

/-- Response preview of the Stop hook: last 200 characters, prefixed with
`...` when truncated. -/
def responsePreviewOf (response : Option String) : String :=
  if truthyStr response then
    let r := response.getD ""
    if r.data.length > 200 then "..." ++ String.mk (r.data.drop (r.data.length - 200)) else r
  else "No response"

/-- The status-or-error field pushed after the fixed fields. -/
def statusField (isSuccess : Bool) (error : Option String) : DiscordField :=
  if isSuccess then { name := "✅ Status", value := "Success" }
  else { name := "❌ Error", value := if truthyStr error then error.getD "" else "Unknown error" }

/-- The optional usage-stats field. -/
def usageFields (usageStats : Option UsageStats) : List DiscordField :=
  match usageStats with
  | some u =>
    [{ name := "📊 Usage Stats"
     , value := "├─ " ++ natToString u.tokenPercentageUsed ++ "% used\n└─ " ++ u.resetTime }]
  | none => []

/-- The Variant-A task-completed entry point (the compiled hook that reads
`prompt`/`tools`/`duration`/`status`/`error` straight from the stdin
payload): the pure message construction, with the usage stats and the
timestamp supplied as arguments. -/
def buildTaskCompletedA (hookData : HookData) (usageStats : Option UsageStats)
    (now : String) : DiscordMessage :=
  let isSuccess := (hookData.status == some "success") || !truthyStr hookData.error
  let toolsUsed := formatTools (hookData.tools.getD [])
  { title := if isSuccess then "🟢 Task Completed" else "🔴 Task Failed"
  , color := if isSuccess then 0x00FF00 else 0xFF0000
  , fields :=
      [ { name := "📝 Prompt", value := promptPreviewOf hookData.prompt }
      , { name := "🔧 Tools", value := if toolsUsed == "" then "None" else toolsUsed }
      , { name := "⚡ Duration", value := durationValue hookData.duration } ] ++
      [statusField isSuccess hookData.error] ++ usageFields usageStats
  , timestamp := now }

/-- The Stop-hook message construction of src/src/hooks/task-completed.ts,
applied to the `SessionData` reconstructed from the transcript. -/
def buildStopMessage (sessionData : SessionData) (usageStats : Option UsageStats)
    (now : String) : DiscordMessage :=
  let isSuccess := !truthyStr sessionData.error
  let toolsUsed := formatTools sessionData.tools
  { title := if isSuccess then "🟢 Task Completed" else "🔴 Task Failed"
  , color := if isSuccess then 0x00FF00 else 0xFF0000
  , fields :=
      [ { name := "📝 Prompt", value := promptPreviewOf sessionData.prompt }
      , { name := "💬 Response", value := responsePreviewOf sessionData.response }
      , { name := "🔧 Tools", value := if toolsUsed == "" then "None" else toolsUsed }
      , { name := "⚡ Duration", value := durationValue sessionData.duration } ] ++
      [statusField isSuccess sessionData.error] ++ usageFields usageStats
  , timestamp := now }

/-- Distinct elements in order of first appearance (spec-side notion,
driven by an explicit `seen` accumulator so it evaluates structurally). -/
def firstAppearanceAux : List String → List String → List String
  | _, [] => []
  | seen, t :: rest =>
    if t ∈ seen then firstAppearanceAux seen rest
    else t :: firstAppearanceAux (seen ++ [t]) rest

def firstAppearance (tools : List String) : List String :=
  firstAppearanceAux [] tools

/-- The tools summary as the claim words it: each distinct tool exactly
once, in order of first appearance, with its occurrence count.  This
definition follows the claim's wording and is compared against the
source-derived `formatTools`. -/
def specFormatTools (tools : List String) : String :=
  if tools = [] then "None"
  else joinComma ((firstAppearance tools).map
    fun t => t ++ " (" ++ natToString (tools.count t) ++ ")")

def c7Hook : HookData :=
  { prompt := some "Test task", tools := some ["Read", "Edit", "Read"]
  , duration := some 2500, status := some "success", error := none }

def c1UserEntry : TranscriptEntry :=
  { type := "user", message := some { role := some "user", content := some (.str "hi") },
    timestamp := none }

def c2Log : List TranscriptLine :=
  [ .entry { type := "user", message := some { role := some "user", content := some (.str "first") },
             timestamp := some 1000 }
  , .entry { type := "assistant", message := none, timestamp := some 2000 }
  , .entry { type := "user", message := some { role := some "user", content := some (.str "second") },
             timestamp := none } ]

def c3Log : List TranscriptLine :=
  [ .entry { type := "user", message := some { role := some "user", content := some (.str "first") },
             timestamp := some 1000 }
  , .entry { type := "assistant"
           , message := some { role := some "assistant", content := some (.parts
               [ { type := "tool_use", name := some "Bash", text := none }
               , { type := "text", name := none, text := some "early reply" } ]) }
           , timestamp := some 2000 }
  , .entry { type := "user", message := some { role := some "user", content := some (.str "second") },
             timestamp := none }
  , .entry { type := "assistant"
           , message := some { role := some "assistant", content := some (.parts
               [ { type := "tool_use", name := some "Read", text := none } ]) }
           , timestamp := some 3000 } ]

def c4Log : List TranscriptLine :=
  [ .entry { type := "user", message := some { role := some "user", content := some (.str "go") },
             timestamp := some 5000 }
  , .entry { type := "assistant", message := none, timestamp := some 1000 } ]

/-! ## Claims C6 and C9: the quota screen parser -/

theorem scanUsage_append_out (p : Nat) (r : String) (rest : List String) :
    ∀ pre : List String, (∀ l ∈ pre, containsChars currentSessionChars l.data = false) →
      scanUsage (pre ++ rest) false p r = scanUsage rest false p r := by
  intro pre
  induction pre with
  | nil => intro _; rfl
  | cons l pre ih =>
    intro h
    have hl := h l (List.mem_cons_self l pre)
    have htail : ∀ l' ∈ pre, containsChars currentSessionChars l'.data = false :=
      fun l' hm => h l' (List.mem_cons_of_mem l hm)
    rw [List.cons_append]
    show scanUsage (l :: (pre ++ rest)) false p r = scanUsage rest false p r
    rw [scanUsage, hl]
    simp only [Bool.false_eq_true, if_false]
    exact ih htail

theorem scanUsage_append_in (r : String) (rest : List String) :
    ∀ (mid : List String) (p : Nat), (∀ l ∈ mid, neutralInSection l = true) →
      scanUsage (mid ++ rest) true p r = scanUsage rest true p r := by
  intro mid
  induction mid with
  | nil => intro _ _; rfl
  | cons l mid ih =>
    intro p h
    have hl := h l (List.mem_cons_self l mid)
    have htail : ∀ l' ∈ mid, neutralInSection l' = true :=
      fun l' hm => h l' (List.mem_cons_of_mem l hm)
    rw [List.cons_append]
    by_cases hM : containsChars currentSessionChars l.data = true
    · rw [scanUsage, hM]
      simp only [if_true]
      exact ih p htail
    · have hM' : containsChars currentSessionChars l.data = false := by
        revert hM; cases containsChars currentSessionChars l.data <;> simp
      rw [neutralInSection, hM'] at hl
      simp only [Bool.false_or, Bool.and_eq_true, Bool.not_eq_true',
        Option.isNone_iff_eq_none] at hl
      obtain ⟨⟨hpm, hrs⟩, hwk⟩ := hl
      rw [scanUsage, hM']
      simp only [Bool.false_eq_true, if_false, if_true, hpm, hrs, hwk, Option.getD_none]
      exact ih p htail

theorem scanUsage_no_marker (p : Nat) (r : String) :
    ∀ lines : List String, (∀ l ∈ lines, containsChars currentSessionChars l.data = false) →
      scanUsage lines false p r = (p, r) := by
  intro lines
  induction lines with
  | nil => intro _; rfl
  | cons l rest ih =>
    intro h
    have hl := h l (List.mem_cons_self l rest)
    rw [scanUsage, hl]
    simp only [Bool.false_eq_true, if_false]
    exact ih fun l' hm => h l' (List.mem_cons_of_mem l hm)

theorem resetScan_startsWith :
    ∀ (cs cap : List Char), resetScan cs = some cap → startsWithChars resetsChars cap = true := by
  intro cs
  induction cs with
  | nil => intro cap h; cases h
  | cons c cs ih =>
    intro cap h
    rw [resetScan] at h
    by_cases hm : matchResetAt (c :: cs) = true
    · rw [if_pos hm] at h
      injection h with h'
      rw [← h']
      exact (Bool.and_eq_true _ _).mp hm |>.1
    · rw [if_neg hm] at h
      exact ih cap h

theorem dropWhile_append_singleton (c : Char) (hc : c.isWhitespace = false) :
    ∀ l : List Char, List.dropWhile Char.isWhitespace (l ++ [c]) ≠ [] := by
  intro l
  induction l with
  | nil => simp [List.dropWhile, hc]
  | cons a l ih =>
    rw [List.cons_append, List.dropWhile]
    cases ha : a.isWhitespace
    · simp
    · simpa using ih

theorem trimChars_resets_ne_nil (cap : List Char)
    (h : startsWithChars resetsChars cap = true) : trimChars cap ≠ [] := by
  cases cap with
  | nil => cases h
  | cons c rest =>
    have hc : c = 'R' := by
      rw [show resetsChars = 'R' :: "esets".toList from rfl, startsWithChars] at h
      have := (Bool.and_eq_true _ _).mp h |>.1
      exact (beq_iff_eq.mp this).symm
    subst hc
    rw [trimChars]
    rw [show List.dropWhile Char.isWhitespace ('R' :: rest) = 'R' :: rest from by
      rw [List.dropWhile]; rfl]
    rw [List.reverse_cons]
    intro hnil
    exact dropWhile_append_singleton 'R' (by decide) rest.reverse
      (List.reverse_eq_nil_iff.mp hnil)

theorem string_mk_ne_empty (x : List Char) (h : x ≠ []) : String.mk x ≠ "" := by
  intro hS
  exact h (congrArg String.data hS)

/-- C6, counterexample: a screen whose `Current session` section contains a
`23% used` line and a later `Resets 2:59pm (America/New_York)` line, but
also a second percentage line in between, parses to percentage 45, not 23 —
each percentage match overwrites the previous one, so the value reported is
the last match before the reset line, not the `23% used` line. -/
theorem parseUsage_percent_overwrite_cex :
    parseUsageOutput c6CexScreen =
      some { percentUsed := 45, resetTime := "Resets 2:59pm (America/New_York)" } ∧
      parseUsageOutput c6CexScreen ≠
        some { percentUsed := 23, resetTime := "Resets 2:59pm (America/New_York)" } := by
  decide

/-- C6 (amended): for every captured screen whose first `Current session`
marker is followed — with only lines that match no pattern in between — by
a line whose last percentage match is `23` (and which is the only
percentage match before the reset line), and then by a line matching the
`Resets …` pattern, the parser returns percentage 23 together with the
trimmed, non-empty reset text of that line; the percentage reported is the
last percentage match encountered before the reset line, so additional
percentage lines in the section change it.  A screen with no
`Current session` marker on any line parses to `none`. -/
theorem parseUsage_section_amended :
    (∀ (pre mid1 mid2 post : List String) (markerLine pctLine resetLine : String)
        (cap : List Char),
      containsChars currentSessionChars markerLine.data = true →
      (∀ l ∈ pre, containsChars currentSessionChars l.data = false) →
      (∀ l ∈ mid1, neutralInSection l = true) →
      (∀ l ∈ mid2, neutralInSection l = true) →
      containsChars currentSessionChars pctLine.data = false →
      percentMatch pctLine.data = some 23 →
      resetScan pctLine.data = none →
      containsChars currentWeekChars pctLine.data = false →
      containsChars currentSessionChars resetLine.data = false →
      percentMatch resetLine.data = none →
      resetScan resetLine.data = some cap →
      parseUsageLines (pre ++ markerLine :: (mid1 ++ pctLine :: (mid2 ++ resetLine :: post)))
          = some { percentUsed := 23, resetTime := String.mk (trimChars cap) } ∧
        String.mk (trimChars cap) ≠ "") ∧
    (∀ lines : List String, (∀ l ∈ lines, containsChars currentSessionChars l.data = false) →
      parseUsageLines lines = none) := by
  constructor
  · intro pre mid1 mid2 post markerLine pctLine resetLine cap
    intro hmark hpre hmid1 hmid2 hpM hpm hprs hpwk hrM hrpm hrs
    have hscan :
        scanUsage (pre ++ markerLine :: (mid1 ++ pctLine :: (mid2 ++ resetLine :: post)))
          false 0 "" = (23, String.mk (trimChars cap)) := by
      rw [scanUsage_append_out 0 "" _ pre hpre]
      rw [scanUsage, hmark]
      simp only [if_true]
      rw [scanUsage_append_in "" _ mid1 0 hmid1]
      rw [scanUsage, hpM]
      simp only [Bool.false_eq_true, if_false, if_true, hpm, hprs, hpwk, Option.getD_some]
      rw [scanUsage_append_in "" _ mid2 23 hmid2]
      rw [scanUsage, hrM]
      simp only [Bool.false_eq_true, if_false, if_true, hrpm, hrs, Option.getD_none]
    have hne : String.mk (trimChars cap) ≠ "" :=
      string_mk_ne_empty _ (trimChars_resets_ne_nil cap (resetScan_startsWith resetLine.data cap hrs))
    refine ⟨?_, hne⟩
    rw [parseUsageLines, hscan]
    norm_num
  · intro lines h
    rw [parseUsageLines, scanUsage_no_marker 0 "" lines h]
    norm_num

theorem parseUsage_section_amended_witness :
    parseUsageLines ["Current session", "23% used", "Resets 2:59pm (America/New_York)"]
        = some { percentUsed := 23, resetTime := "Resets 2:59pm (America/New_York)" } ∧
      ("Resets 2:59pm (America/New_York)" : String) ≠ "" := by
  have h := parseUsage_section_amended.1 [] [] [] []
    "Current session" "23% used" "Resets 2:59pm (America/New_York)"
    ("Resets 2:59pm (America/New_York)".data)
    (by decide) (by intro l hl; cases hl) (by intro l hl; cases hl) (by intro l hl; cases hl)
    (by decide) (by decide) (by decide) (by decide) (by decide) (by decide) (by decide)
  exact ⟨h.1, h.2⟩

theorem scanUsage_fst_le :
    ∀ (lines : List String) (inS : Bool) (p : Nat) (r : String),
      p ≤ 100 → (∀ l ∈ lines, (percentMatch l.data).getD 0 ≤ 100) →
      (scanUsage lines inS p r).1 ≤ 100 := by
  intro lines
  induction lines with
  | nil => intro inS p r hp _; exact hp
  | cons l rest ih =>
    intro inS p r hp h
    have hl := h l (List.mem_cons_self l rest)
    have htail : ∀ l' ∈ rest, (percentMatch l'.data).getD 0 ≤ 100 :=
      fun l' hm => h l' (List.mem_cons_of_mem l hm)
    have hp1 : (percentMatch l.data).getD p ≤ 100 := by
      cases hpm : percentMatch l.data with
      | none => simpa using hp
      | some n => rw [hpm] at hl; simpa using hl
    rw [scanUsage]
    by_cases hM : containsChars currentSessionChars l.data = true
    · rw [hM]
      simp only [if_true]
      exact ih true p r hp htail
    · have hM' : containsChars currentSessionChars l.data = false := by
        revert hM; cases containsChars currentSessionChars l.data <;> simp
      rw [hM']
      simp only [Bool.false_eq_true, if_false]
      cases inS with
      | false =>
        simp only [Bool.false_eq_true, if_false]
        exact ih false p r hp htail
      | true =>
        simp only [if_true]
        cases hrs : resetScan l.data with
        | some cap => exact hp1
        | none =>
          cases hwk : containsChars currentWeekChars l.data with
          | true => simp only [if_true]; exact hp1
          | false =>
            simp only [Bool.false_eq_true, if_false]
            exact ih true _ r hp1 htail

/-- C9, counterexample: the parser does not clamp the percentage — a screen
showing `150% used` inside the `Current session` section yields a snapshot
with percentage 150, outside the claimed 0–100 range. -/
theorem usage_percent_over_100_cex :
    getUsageStats (some c9CexScreen) =
      some { tokenPercentageUsed := 150, resetTime := "Resets 2:59pm (America/New_York)" } ∧
      100 < (150 : Nat) := by
  decide

/-- C9 (amended): the snapshot's percentage is a non-negative integer (it
is the `parseInt` of a digit run, modelled as `Nat`); it lies within
0–100 provided every percentage figure readable on the captured screen is
at most 100 — the parser itself performs no clamping, so screens showing a
larger figure propagate it verbatim. -/
theorem usage_percent_in_range (out : String)
    (h : ∀ l ∈ (splitLines out.data).map String.mk, (percentMatch l.data).getD 0 ≤ 100) :
    ∀ u, getUsageStats (some out) = some u → u.tokenPercentageUsed ≤ 100 := by
  intro u hu
  have hle : (scanUsage ((splitLines out.data).map String.mk) false 0 "").1 ≤ 100 :=
    scanUsage_fst_le _ false 0 "" (by norm_num) h
  rw [getUsageStats] at hu
  rw [parseUsageOutput, parseUsageLines] at hu
  by_cases hcond :
      (scanUsage ((splitLines out.data).map String.mk) false 0 "").1 > 0 ∨
        (scanUsage ((splitLines out.data).map String.mk) false 0 "").2 ≠ ""
  · rw [if_pos hcond] at hu
    injection hu with hu'
    rw [← hu']
    exact hle
  · rw [if_neg hcond] at hu
    cases hu

theorem usage_percent_in_range_witness :
    getUsageStats (some "Current session\n23% used\nResets 2:59pm (America/New_York)") =
      some { tokenPercentageUsed := 23, resetTime := "Resets 2:59pm (America/New_York)" } ∧
      (23 : Nat) ≤ 100 := by
  refine ⟨by decide, ?_⟩
  have h := usage_percent_in_range
    "Current session\n23% used\nResets 2:59pm (America/New_York)" (by decide)
    { tokenPercentageUsed := 23, resetTime := "Resets 2:59pm (America/New_York)" } (by decide)
  exact h

/-! ## Claim C8: formatTools -/

theorem mem_firstAppearanceAux :
    ∀ (l seen : List String) (u : String),
      u ∈ firstAppearanceAux seen l → u ∈ l ∧ u ∉ seen := by
  intro l
  induction l with
  | nil => intro seen u h; cases h
  | cons t rest ih =>
    intro seen u h
    rw [firstAppearanceAux] at h
    by_cases hts : t ∈ seen
    · rw [if_pos hts] at h
      obtain ⟨h1, h2⟩ := ih seen u h
      exact ⟨List.mem_cons_of_mem t h1, h2⟩
    · rw [if_neg hts] at h
      rcases List.mem_cons.mp h with rfl | h'
      · exact ⟨List.mem_cons_self u rest, hts⟩
      · obtain ⟨h1, h2⟩ := ih (seen ++ [t]) u h'
        exact ⟨List.mem_cons_of_mem t h1, fun hs => h2 (List.mem_append_left _ hs)⟩

theorem bump_not_mem :
    ∀ (al : List (String × Nat)) (t : String), t ∉ al.map Prod.fst →
      bump al t = al ++ [(t, 1)] := by
  intro al
  induction al with
  | nil => intro t _; rfl
  | cons p rest ih =>
    intro t h
    obtain ⟨k, c⟩ := p
    have hk : ¬(k = t) := by
      intro he
      exact h (by rw [he]; exact List.mem_cons_self t _)
    have ht : t ∉ rest.map Prod.fst := fun hm => h (List.mem_cons_of_mem _ hm)
    rw [bump, if_neg hk, ih t ht, List.cons_append]

theorem count_cons_ne (t u : String) (l : List String) (h : t ≠ u) :
    List.count u (t :: l) = List.count u l := by
  rw [List.count_cons, beq_eq_false_iff_ne.mpr h]
  simp

theorem bump_mem :
    ∀ (al : List (String × Nat)) (t : String),
      (al.map Prod.fst).Nodup → t ∈ al.map Prod.fst →
      bump al t = al.map fun p => if p.1 = t then (p.1, p.2 + 1) else p := by
  intro al
  induction al with
  | nil => intro t _ hm; cases hm
  | cons p rest ih =>
    intro t hnd hm
    obtain ⟨k, c⟩ := p
    rw [List.map_cons, List.nodup_cons] at hnd
    obtain ⟨hknr, hndr⟩ := hnd
    by_cases hk : k = t
    · subst hk
      rw [bump, if_pos rfl]
      have hcg : ∀ q ∈ rest, (if q.1 = k then (q.1, q.2 + 1) else q) = q := by
        intro q hq
        rw [if_neg]
        intro he
        have hmm : q.1 ∈ rest.map Prod.fst := List.mem_map_of_mem Prod.fst hq
        rw [he] at hmm
        exact hknr hmm
      rw [List.map_cons, List.map_congr_left hcg]
      simp
    · have ht : t ∈ rest.map Prod.fst := by
        rcases List.mem_cons.mp hm with he | hm'
        · exact absurd he.symm hk
        · exact hm'
      rw [bump, if_neg hk, List.map_cons, if_neg hk, ih t hndr ht]

theorem bump_keys_mem (al : List (String × Nat)) (t : String)
    (hnd : (al.map Prod.fst).Nodup) (hm : t ∈ al.map Prod.fst) :
    (bump al t).map Prod.fst = al.map Prod.fst := by
  rw [bump_mem al t hnd hm, List.map_map]
  apply List.map_congr_left
  intro p _
  by_cases hp : p.1 = t
  · simp [hp]
  · simp [hp]

theorem countsFold_eq :
    ∀ (tools : List String) (al : List (String × Nat)),
      (al.map Prod.fst).Nodup →
      tools.foldl bump al =
        al.map (fun p => (p.1, p.2 + tools.count p.1)) ++
          (firstAppearanceAux (al.map Prod.fst) tools).map fun t => (t, tools.count t) := by
  intro tools
  induction tools with
  | nil =>
    intro al _
    simp [firstAppearanceAux]
  | cons t rest ih =>
    intro al hnd
    rw [List.foldl_cons]
    by_cases hmem : t ∈ al.map Prod.fst
    · have hkeys := bump_keys_mem al t hnd hmem
      have hnd' : ((bump al t).map Prod.fst).Nodup := by rw [hkeys]; exact hnd
      rw [ih (bump al t) hnd', hkeys]
      rw [firstAppearanceAux, if_pos hmem]
      congr 1
      · rw [bump_mem al t hnd hmem, List.map_map]
        apply List.map_congr_left
        intro p _
        dsimp only [Function.comp_apply]
        by_cases hp : p.1 = t
        · have hcnt : List.count p.1 (t :: rest) = List.count p.1 rest + 1 := by
            rw [hp, List.count_cons_self]
          rw [if_pos hp, hcnt]
          exact congrArg (Prod.mk p.1)
            (show p.2 + 1 + List.count p.1 rest = p.2 + (List.count p.1 rest + 1) by omega)
        · have hcnt : List.count p.1 (t :: rest) = List.count p.1 rest :=
            count_cons_ne t p.1 rest (fun he => hp he.symm)
          rw [if_neg hp, hcnt]
      · apply List.map_congr_left
        intro u hu
        have hu' := (mem_firstAppearanceAux rest (al.map Prod.fst) u hu).2
        have hne : t ≠ u := fun he => hu' (he ▸ hmem)
        rw [count_cons_ne t u rest hne]
    · have hb := bump_not_mem al t hmem
      have hkeys : (bump al t).map Prod.fst = al.map Prod.fst ++ [t] := by
        rw [hb, List.map_append]
        rfl
      have hnd' : ((bump al t).map Prod.fst).Nodup := by
        rw [hkeys]
        refine List.Nodup.append hnd (List.nodup_singleton t) ?_
        intro a ha hb'
        rw [List.mem_singleton] at hb'
        subst hb'
        exact hmem ha
      rw [ih (bump al t) hnd', hkeys, hb]
      rw [firstAppearanceAux, if_neg hmem]
      rw [List.map_append, List.map_cons, List.append_assoc]
      congr 1
      · apply List.map_congr_left
        intro p hp
        have hpt : t ≠ p.1 := by
          intro he
          have hmm : p.1 ∈ al.map Prod.fst := List.mem_map_of_mem Prod.fst hp
          rw [← he] at hmm
          exact hmem hmm
        rw [count_cons_ne t p.1 rest hpt]
      · simp only [List.map_cons, List.map_nil, List.nil_append, List.singleton_append]
        congr 1
        · rw [List.count_cons_self]
          exact congrArg (Prod.mk t)
            (show 1 + List.count t rest = List.count t rest + 1 by omega)
        · apply List.map_congr_left
          intro u hu
          have hu' := (mem_firstAppearanceAux rest (al.map Prod.fst ++ [t]) u hu).2
          have hne : t ≠ u := by
            intro he
            exact hu' (he ▸ List.mem_append_right _ (List.mem_singleton_self t))
          rw [count_cons_ne t u rest hne]

theorem countsList_eq (tools : List String) :
    countsList tools = (firstAppearance tools).map fun t => (t, tools.count t) := by
  have h := countsFold_eq tools [] (by simp)
  simpa [countsList, firstAppearance] using h

theorem objectEntries_no_index (al : List (String × Nat))
    (h : ∀ p ∈ al, isArrayIndexKey p.1 = false) : objectEntries al = al := by
  rw [objectEntries]
  have h1 : (al.filter fun p => isArrayIndexKey p.1) = [] := by
    rw [List.filter_eq_nil_iff]
    intro p hp
    simp [h p hp]
  have h2 : (al.filter fun p => !isArrayIndexKey p.1) = al := by
    rw [List.filter_eq_self]
    intro p hp
    simp [h p hp]
  rw [h1, h2]
  rfl

/-- C8, counterexample: `Object.entries` places array-index property keys
first in numeric order, so the tool list `["Read", "0"]` renders as
`"0 (1), Read (1)"` — not in first-appearance order. -/
theorem formatTools_numeric_key_cex :
    formatTools ["Read", "0"] = "0 (1), Read (1)" ∧
      formatTools ["Read", "0"] ≠ "Read (1), 0 (1)" := by
  decide

/-- C8 (amended): `formatTools ["Read","Edit","Read"] = "Read (2), Edit (1)"`,
and for every tool list none of whose names is an ECMAScript array-index
string, the rendered summary lists each distinct tool exactly once, in
order of first appearance, with its occurrence count and no duplicates
(formally: it coincides with the first-appearance/count formatter
`specFormatTools`).  Array-index names are instead hoisted to the front in
numeric order by JavaScript object key ordering. -/
theorem formatTools_first_appearance :
    formatTools ["Read", "Edit", "Read"] = "Read (2), Edit (1)" ∧
      ∀ tools : List String, (∀ t ∈ tools, isArrayIndexKey t = false) →
        formatTools tools = specFormatTools tools := by
  refine ⟨by decide, ?_⟩
  intro tools h
  rw [formatTools, specFormatTools]
  by_cases hnil : tools = []
  · rw [if_pos hnil, if_pos hnil]
  · rw [if_neg hnil, if_neg hnil]
    have hobj : objectEntries (countsList tools) = countsList tools := by
      apply objectEntries_no_index
      intro p hp
      rw [countsList_eq] at hp
      obtain ⟨t, ht, rfl⟩ := List.mem_map.mp hp
      rw [firstAppearance] at ht
      exact h t (mem_firstAppearanceAux tools [] t ht).1
    rw [hobj, countsList_eq, List.map_map]
    rfl

theorem formatTools_first_appearance_witness :
    formatTools ["Read", "Edit", "Read"] = specFormatTools ["Read", "Edit", "Read"] :=
  formatTools_first_appearance.2 ["Read", "Edit", "Read"] (by decide)

/-! ## Claims C7 and C10: the hook messages -/

/-- C7: for the stdin payload `{"prompt":"Test task","tools":["Read","Edit",
"Read"],"duration":2500,"status":"success"}` with no transcript path, the
task-completed entry point builds a message whose title is the
success-green "🟢 Task Completed" (containing "Task Completed"), whose
color is 0x00FF00, whose Duration field renders "2.5s" and whose Tools
field renders "Read (2), Edit (1)" — for any usage-stats outcome and
timestamp. -/
theorem taskCompleted_end_to_end (usage : Option UsageStats) (now : String) :
    (buildTaskCompletedA c7Hook usage now).title = "🟢 Task Completed" ∧
      containsChars ("Task Completed".toList) (buildTaskCompletedA c7Hook usage now).title.data
        = true ∧
      (buildTaskCompletedA c7Hook usage now).color = 0x00FF00 ∧
      (buildTaskCompletedA c7Hook usage now).fields.take 4 =
        [ { name := "📝 Prompt", value := "Test task" }
        , { name := "🔧 Tools", value := "Read (2), Edit (1)" }
        , { name := "⚡ Duration", value := "2.5s" }
        , { name := "✅ Status", value := "Success" } ] := by
  exact ⟨rfl, rfl, rfl, rfl⟩

/-- C10: a reconstructed session whose duration is present but exactly 0 ms
produces the very same outgoing message as one whose duration is absent —
`0` is falsy in the duration check, so the Duration field renders the
placeholder "Unknown" in both cases. -/
theorem zero_duration_renders_unknown (p r : Option String) (ts : List String)
    (err : Option String) (usage : Option UsageStats) (now : String) :
    buildStopMessage { prompt := p, response := r, tools := ts, duration := some 0, error := err }
        usage now =
      buildStopMessage { prompt := p, response := r, tools := ts, duration := none, error := err }
        usage now ∧
      (buildStopMessage { prompt := p, response := r, tools := ts, duration := some 0, error := err }
        usage now).fields.get? 3 = some { name := "⚡ Duration", value := "Unknown" } := by
  exact ⟨rfl, rfl⟩

/-! ## Supporting lemmas: the end time of the second pass is a timestamp
of some entry -/

theorem partStep_endTime (s : ScanState) (p : JPart) : (partStep s p).endTime = s.endTime := by
  unfold partStep
  cases p.name <;> cases p.text <;> dsimp only <;> (repeat' split) <;> rfl

theorem foldl_partStep_endTime (ps : List JPart) :
    ∀ s : ScanState, (ps.foldl partStep s).endTime = s.endTime := by
  induction ps with
  | nil => intro s; rfl
  | cons p ps ih =>
    intro s
    rw [List.foldl_cons, ih, partStep_endTime]

theorem collectStep_endTime (s : ScanState) (e : TranscriptEntry) :
    (collectStep s e).endTime = s.endTime := by
  unfold collectStep
  (repeat' split) <;> first
    | rfl
    | apply foldl_partStep_endTime

theorem secondPassStep_endTime (lastTS : Option Int) (s : ScanState) (e : TranscriptEntry) :
    (secondPassStep lastTS s e).endTime = s.endTime ∨
      (secondPassStep lastTS s e).endTime = e.timestamp := by
  unfold secondPassStep
  split
  · exact Or.inl rfl
  · unfold stampStep
    cases ht : e.timestamp with
    | none => exact Or.inl (collectStep_endTime s e)
    | some t =>
      dsimp only
      by_cases hc : (collectStep s e).collecting = true
      · rw [if_pos hc]
        exact Or.inr rfl
      · rw [if_neg hc]
        exact Or.inl (collectStep_endTime s e)

theorem foldl_endTime (lastTS : Option Int) (entries : List TranscriptEntry) :
    ∀ (s : ScanState) (w : Int),
      (entries.foldl (secondPassStep lastTS) s).endTime = some w →
      s.endTime = some w ∨ ∃ e ∈ entries, e.timestamp = some w := by
  induction entries with
  | nil => intro s w h; exact Or.inl h
  | cons e es ih =>
    intro s w h
    rw [List.foldl_cons] at h
    rcases ih _ w h with h1 | ⟨e', he', ht'⟩
    · rcases secondPassStep_endTime lastTS s e with h2 | h2
      · exact Or.inl (h2 ▸ h1)
      · exact Or.inr ⟨e, List.mem_cons_self e es, h2 ▸ h1⟩
    · exact Or.inr ⟨e', List.mem_cons_of_mem e he', ht'⟩

/-! ## Claims C1–C5: the transcript reconstructor -/

/-- C1, counterexample: a log consisting of a malformed line followed by a
valid user entry does not reconstruct to the same Episode as the log with
the malformed line removed — the parse failure throws to the function-level
catch and the whole reconstruction is abandoned. -/
theorem parseTranscript_malformed_not_skipped :
    parseTranscript (some [.malformed, .entry c1UserEntry]) ≠
      parseTranscript (some [.entry c1UserEntry]) := by
  decide

/-- C1 (amended): a line that fails to parse is not skipped; any log
containing a malformed (non-blank) line reconstructs to the empty Episode
`{ tools := [] }` with every other field absent, regardless of the valid
entries around it.  Only whitespace-only lines are skipped. -/
theorem parseTranscript_malformed_aborts (lines : List TranscriptLine)
    (h : TranscriptLine.malformed ∈ lines) :
    parseTranscript (some lines) = emptySessionData := by
  have hany : lines.any isMalformedLine = true :=
    List.any_eq_true.mpr ⟨TranscriptLine.malformed, h, rfl⟩
  simp [parseTranscript, hany]

theorem parseTranscript_malformed_aborts_witness :
    parseTranscript (some [.entry c1UserEntry, .malformed]) = emptySessionData :=
  parseTranscript_malformed_aborts [.entry c1UserEntry, .malformed]
    (List.mem_cons_of_mem _ (List.mem_cons_self _ _))

/-- C2: failing input.  The anchor (most recent user message with textual
content, `"second"`) carries no timestamp, yet an earlier user message does;
the stale `lastUserTimestamp` re-identifies that earlier message as the
trigger, and the Episode comes back with `duration = 2000 − 1000 = 1000`
present instead of absent. -/
theorem duration_present_without_anchor_timestamp :
    (parseTranscript (some c2Log)).prompt = some "second" ∧
      (parseTranscript (some c2Log)).duration = some 1000 := by
  decide

/-- C3: failing input.  The log is an earlier unrelated exchange
(`"first"` → assistant using `Bash` with text `"early reply"`) followed by
the anchor exchange (`"second"` → assistant using `Read`).  Because the
anchor has no timestamp, collection starts right after the EARLIER user
message, and the earlier exchange's tool and response text are attributed
to the reported episode. -/
theorem tools_from_earlier_exchange :
    (parseTranscript (some c3Log)).prompt = some "second" ∧
      (parseTranscript (some c3Log)).tools = ["Bash", "Read"] ∧
      (parseTranscript (some c3Log)).response = some "early reply" := by
  decide

/-- C4, counterexample: a log whose entry after the anchor carries an
earlier (out-of-order) timestamp yields a present but negative duration;
the source computes `endTime - lastUserTimestamp` without any guard. -/
theorem duration_negative_cex :
    (parseTranscript (some c4Log)).duration = some (-4000) ∧ (-4000 : Int) < 0 := by
  decide

/-- C4 (amended): when `duration` is present it is the integer millisecond
difference `endTime − anchorTime`; it is non-negative provided every
timestamped entry of the log is no earlier than the recorded anchor
timestamp (in particular for logs in chronological order), but the source
does not guard out-of-order timestamps, which produce negative values. -/
theorem duration_nonneg_of_anchor_le (lines : List TranscriptLine) (v : Int)
    (hv : (firstPass (transcriptEntriesOf lines)).2 = some v)
    (hts : ∀ e ∈ transcriptEntriesOf lines, v ≤ e.timestamp.getD v)
    (d : Int) (hd : (parseTranscript (some lines)).duration = some d) :
    0 ≤ d := by
  by_cases hany : lines.any isMalformedLine = true
  · simp [parseTranscript, hany, emptySessionData] at hd
  · simp only [parseTranscript, hany, Bool.false_eq_true, if_false, runTranscript] at hd
    rw [hv] at hd
    cases hw : (secondPass (some v) (transcriptEntriesOf lines)).endTime with
    | none => rw [hw] at hd; simp [durationOf] at hd
    | some w =>
      rw [hw] at hd
      simp only [durationOf] at hd
      split at hd
      · rcases foldl_endTime (some v) (transcriptEntriesOf lines) initialScan w hw
          with h0 | ⟨e, he, ht⟩
        · simp [initialScan] at h0
        · have hle := hts e he
          rw [ht] at hle
          simp only [Option.getD_some] at hle
          have hdw : d = w - v := by
            injection hd with hd'
            omega
          omega
      · simp at hd

theorem duration_nonneg_witness :
    0 ≤ (2000 : Int) ∧
      (parseTranscript (some
        [ .entry { type := "user"
                 , message := some { role := some "user", content := some (.str "go") }
                 , timestamp := some 1000 }
        , .entry { type := "assistant", message := none, timestamp := some 3000 } ])).duration
        = some 2000 :=
  ⟨duration_nonneg_of_anchor_le
      [ .entry { type := "user"
               , message := some { role := some "user", content := some (.str "go") }
               , timestamp := some 1000 }
      , .entry { type := "assistant", message := none, timestamp := some 3000 } ]
      1000 (by decide) (by decide) 2000 (by decide),
    by decide⟩

/-- C5: `parseTranscript` is total (the model is a Lean function, mirroring
the source's function-level try/catch): a read failure (`none`) and any
parse failure both return the Episode with empty tool list and all other
fields absent, and the same Episode results from every log with zero valid
entries (all lines blank or malformed). -/
theorem parseTranscript_failure_empty :
    parseTranscript none = emptySessionData ∧
      (∀ lines : List TranscriptLine, TranscriptLine.malformed ∈ lines →
        parseTranscript (some lines) = emptySessionData) ∧
      (∀ lines : List TranscriptLine, (∀ l ∈ lines, entryOfLine l = none) →
        parseTranscript (some lines) = emptySessionData) := by
  refine ⟨rfl, ?_, ?_⟩
  · intro lines h
    have hany : lines.any isMalformedLine = true :=
      List.any_eq_true.mpr ⟨TranscriptLine.malformed, h, rfl⟩
    simp [parseTranscript, hany]
  · intro lines h
    by_cases hany : lines.any isMalformedLine = true
    · simp [parseTranscript, hany]
    · have hnil : transcriptEntriesOf lines = [] := by
        unfold transcriptEntriesOf
        exact List.filterMap_eq_nil_iff.mpr h
      simp only [parseTranscript, hany, Bool.false_eq_true, if_false, hnil]
      decide

theorem parseTranscript_failure_empty_witness :
    parseTranscript (some [TranscriptLine.blank, TranscriptLine.blank]) = emptySessionData :=
  parseTranscript_failure_empty.2.2 [TranscriptLine.blank, TranscriptLine.blank]
    (by
      intro l hl
      rcases List.mem_cons.mp hl with rfl | hl2
      · rfl
      · rcases List.mem_cons.mp hl2 with rfl | hl3
        · rfl
        · cases hl3)
